import Mathlib

/-!
Verification of the identity-resolution engine of the Database-Tools
repository: a shallow embedding of `modules/CityList.py`,
`modules/AntigenicDatabase.py` and `tools.py`, together with theorems
settling the specification claims about them.

Python strings are modelled by `String`, and the Python string
primitives used by the code (`upper`, `replace`, `split`, `join`,
`in`) are implemented below as structurally recursive functions over
the character list, so that every definition evaluates inside the
kernel.  Fallible numpy reductions (`np.max` on an empty array raises
`ValueError`) are modelled by `Except`/`Option` results.  Python's
`re` module is only ever applied, in the code under study, to patterns
that are literal strings free of regex metacharacters; for such
patterns `re.search(p, s)` holds iff `p` occurs as a substring of `s`
(case-insensitively when compiled with `re.IGNORECASE`), and the
embedding uses that substring semantics, stated at each definition.
-/

/-- `l1` is a prefix of `l2` (Boolean, by character equality). -/
def isPrefixB : List Char → List Char → Bool
  | [], _ => true
  | _ :: _, [] => false
  | a :: as, b :: bs => a == b && isPrefixB as bs

/-- `needle` occurs contiguously inside `hay` (Boolean). -/
def isInfixB (needle : List Char) : List Char → Bool
  | [] => isPrefixB needle []
  | c :: rest => isPrefixB needle (c :: rest) || isInfixB needle rest

/-- `needle in hay` for Python strings: substring containment. -/
def strContains (hay needle : String) : Bool :=
  isInfixB needle.data hay.data

/-- `str.upper` for the ASCII strings handled by the repository. -/
def pyUpper (s : String) : String :=
  ⟨s.data.map Char.toUpper⟩

/-- Auxiliary recursion for `str.replace`: scans left to right,
replacing non-overlapping occurrences of `old` by `new`.  The `fuel`
argument (initially the string length, consumed one unit per character
step) only makes the recursion structural; it never runs out. -/
def replaceAux (old new : List Char) : Nat → List Char → List Char
  | _, [] => []
  | 0, s => s
  | fuel + 1, c :: rest =>
    if old ≠ [] && isPrefixB old (c :: rest) then
      new ++ replaceAux old new fuel (List.drop (old.length - 1) rest)
    else
      c :: replaceAux old new fuel rest

/-- Python `s.replace(old, new)` (for non-empty `old`, the only use). -/
def pyReplace (s old new : String) : String :=
  ⟨replaceAux old.data new.data s.data.length s.data⟩

/-- Auxiliary recursion for `str.split(sep)`; `acc` holds the current
fragment reversed, `fuel` as in `replaceAux`. -/
def splitAux (sep : List Char) : Nat → List Char → List Char → List (List Char)
  | _, acc, [] => [acc.reverse]
  | 0, acc, s => [acc.reverse ++ s]
  | fuel + 1, acc, c :: rest =>
    if sep ≠ [] && isPrefixB sep (c :: rest) then
      acc.reverse :: splitAux sep fuel [] (List.drop (sep.length - 1) rest)
    else
      splitAux sep fuel (c :: acc) rest

/-- Python `s.split(sep)` for a non-empty separator: fragments between
non-overlapping occurrences of `sep`, empty fragments kept. -/
def pySplit (s sep : String) : List String :=
  (splitAux sep.data s.data.length [] s.data).map (fun l => ⟨l⟩)

/-- Python `sep.join(parts)`. -/
def pyJoin (sep : String) : List String → String
  | [] => ""
  | [x] => x
  | x :: y :: rest => x ++ sep ++ pyJoin sep (y :: rest)

/-- `tools.flatten_list`: concatenation of a list of lists, in order. -/
def flatten_list {α : Type} (l : List (List α)) : List α :=
  l.flatten

/-! ## `CityList.generate_city_aliases` (CityList.py lines 22 to 34) -/

/-- The `replace_chars` list of `generate_city_aliases`. -/
def replaceChars : List String := ["-", "_", " ", "/"]

/-- The ordered pairs `(char1, char2)` enumerated by the double loop of
`generate_city_aliases`: `char1` ranges over `replace_chars` and
`char2` over the *later* entries `replace_chars[ind1+1:]` plus the
terminal `''` (removal). -/
def sepPairs : List String → List (String × String)
  | [] => []
  | c1 :: rest => (rest ++ [""]).map (fun c2 => (c1, c2)) ++ sepPairs rest

/-- `generate_city_aliases(name)`: the upper-cased name first, then, for
each enumerated pair `(char1, char2)`, the variant
`name.upper().replace(char1, char2)` whenever the upper-cased name
contains `char1`. -/
def generate_city_aliases (name : String) : List String :=
  let up := pyUpper name
  up :: (sepPairs replaceChars).filterMap
    (fun p => if strContains up p.1 then some (pyReplace up p.1 p.2) else none)

/-- C3: the claim — every ordered pair of *distinct* separators (plus
removal) whose first element occurs in the upper-cased name contributes
its substitution variant.  Refuted: the code only substitutes toward
separators appearing later in `replace_chars`; the name `A_B` contains
`_` yet the variant `A-B` (substituting `_` by the earlier separator
`-`) is never generated. -/
theorem generate_city_aliases_counterexample :
    generate_city_aliases "A_B" = ["A_B", "A B", "A/B", "AB"] ∧
    "-" ∈ replaceChars ∧ "_" ∈ replaceChars ∧
    strContains (pyUpper "A_B") "_" = true ∧
    (pyReplace (pyUpper "A_B") "_" "-") ∉ generate_city_aliases "A_B" := by
  refine ⟨by decide, by decide, by decide, by decide, by decide⟩

/-- C3 (amended): alias generation starts from the upper-cased name and,
for every pair `(s1, s2)` enumerated by the double loop — `s1` a
separator and `s2` a *later* separator of `['-','_',' ','/']` or the
terminal remove option `''`, not every ordered pair of distinct
separators — adds `name.upper().replace(s1, s2)` whenever the
upper-cased name contains `s1`. -/
theorem generate_city_aliases_pairs (name : String) (p : String × String)
    (hp : p ∈ sepPairs replaceChars)
    (hc : strContains (pyUpper name) p.1 = true) :
    (pyReplace (pyUpper name) p.1 p.2) ∈ generate_city_aliases name := by
  unfold generate_city_aliases
  refine List.mem_cons_of_mem _ (List.mem_filterMap.mpr ⟨p, hp, ?_⟩)
  simp [hc]

/-- Witness for `generate_city_aliases_pairs`: the pair `('_', ' ')` is
enumerated, `A_B` contains `_`, and the variant `A B` is generated. -/
theorem generate_city_aliases_pairs_witness :
    ("_", " ") ∈ sepPairs replaceChars ∧
    strContains (pyUpper "A_B") "_" = true ∧
    "A B" ∈ generate_city_aliases "A_B" := by
  refine ⟨by decide, by decide, ?_⟩
  have h := generate_city_aliases_pairs "A_B" ("_", " ") (by decide) (by decide)
  have he : pyReplace (pyUpper "A_B") "_" " " = "A B" := by decide
  rwa [he] at h

/-! ## Levenshtein distance (the `editdistance` package's `ed.eval`) -/

/-- Inner loop of the edit-distance dynamic program: given the previous
row, produce the entries of the next row after its first cell.
`diag` is the entry up-left of the cell, `left` the entry to its left. -/
def levRowAux (ca : Char) : List Char → List Nat → Nat → Nat → List Nat
  | [], _, _, _ => []
  | cb :: bs, old, diag, left =>
    match old with
    | [] => []
    | up :: rest =>
      let v := Nat.min (Nat.min (up + 1) (left + 1))
        (if ca == cb then diag else diag + 1)
      v :: levRowAux ca bs rest up v

/-- One row step of the edit-distance dynamic program. -/
def levStep (b : List Char) (oldRow : List Nat) (ca : Char) : List Nat :=
  match oldRow with
  | [] => []
  | d0 :: rest => (d0 + 1) :: levRowAux ca b rest d0 (d0 + 1)

/-- `ed.eval(a, b)`: Levenshtein distance between two strings. -/
def lev (a b : String) : Nat :=
  (a.data.foldl (levStep b.data) (List.range (b.data.length + 1))).getLastD 0

/-! ## `City` (CityList.py lines 36 to 93) -/

/-- A place record: upper-cased canonical name, short code, generated
aliases. -/
structure City where
  name : String
  abb : String
  aliases : List String
deriving DecidableEq

/-- `City.__init__(name, abb)`: stores `name.upper()`, the abbreviation
and `generate_city_aliases(name)`. -/
def mkCity (name abb : String) : City :=
  ⟨pyUpper name, abb, generate_city_aliases name⟩

/-- `re.compile(pattern, re.IGNORECASE).search(s)` for the
metacharacter-free patterns used by `City.match`, with the `'^'+q+'$'`
anchoring of `exact_match`: an anchored pattern matches iff the whole
string equals it ignoring case, an unanchored one iff it occurs as a
substring ignoring case. -/
def reSearchCI (pat : String) (exact : Bool) (s : String) : Bool :=
  if exact then pyUpper pat == pyUpper s
  else strContains (pyUpper s) (pyUpper pat)

/-- `City.match(query, aliasing, exact_match)`: with aliasing, every
query alias is tried as a case-insensitive regex against every city
alias; without aliasing only the literal query against the canonical
name. -/
def City.matchQuery (c : City) (query : String)
    (aliasing exactMatch : Bool) : Bool :=
  let queryAliases := if aliasing then generate_city_aliases query else [query]
  let cityAliases := if aliasing then c.aliases else [c.name]
  queryAliases.any (fun q => cityAliases.any (fun x => reSearchCI q exactMatch x))

/-- C4: the claim — `match(query, aliasing=False)` returns true only
when the query equals the canonical name.  Refuted: without aliasing
the query is still used as a case-insensitive unanchored regex, so the
strict prefix `PARI` of `PARIS` matches although it differs from the
canonical name. -/
theorem city_match_literal_counterexample :
    City.matchQuery (mkCity "PARIS" "PA") "PARI" false false = true ∧
    (mkCity "PARIS" "PA").name = "PARIS" ∧ "PARI" ≠ "PARIS" ∧
    pyUpper "PARI" ≠ pyUpper "PARIS" := by
  refine ⟨by decide, by decide, by decide, by decide⟩

/-- C4 (amended): `match(query, aliasing=False)` skips alias expansion
on both sides — the stored alias list is irrelevant — but compares the
query to the canonical name as a case-insensitive unanchored regex
(anchored when `exact_match`): it returns true iff the upper-cased
query occurs inside the upper-cased canonical name, not only on exact
equality. -/
theorem city_match_no_aliasing_spec (n a : String) (al1 al2 : List String)
    (q : String) (e : Bool) :
    City.matchQuery ⟨n, a, al1⟩ q false e = City.matchQuery ⟨n, a, al2⟩ q false e ∧
    (City.matchQuery ⟨n, a, al1⟩ q false false = true ↔
      strContains (pyUpper n) (pyUpper q) = true) := by
  constructor
  · rfl
  · simp [City.matchQuery, reSearchCI]

/-- `City.ematch(query, aliasing)`: the minimum Levenshtein distance
from the query to the candidate strings (`min` over a list that is
never empty: the aliases always contain the upper-cased name). -/
def listMin : List Nat → Nat
  | [] => 0
  | x :: xs => xs.foldl Nat.min x

/-- Python `len` on a string (number of characters). -/
def pyLen (s : String) : Nat := s.data.length

/-- `City.ematch`. -/
def City.ematch (c : City) (query : String) (aliasing : Bool) : Nat :=
  let lookupVals := if aliasing then c.aliases else [c.name]
  listMin (lookupVals.map (fun x => lev x query))

/-! ## `CityList.esearch` (CityList.py lines 173 to 192) -/

/-- `CityList.esearch(query, aliasing)`: per-city edit distances, their
minimum `m` (`np.min`; the directory built from `city_map` is never
empty), and either all places achieving `m` paired with `m` when
`m < len(query)/2`, or `([], len(query)/2)`.  The second component is
a rational because Python's `/` is true division. -/
def esearch (cities : List City) (query : String) (aliasing : Bool) :
    List City × ℚ :=
  let edists := cities.map (fun c => c.ematch query aliasing)
  let m := listMin edists
  if (m : ℚ) < (pyLen query : ℚ) / 2 then
    (((cities.zip edists).filter (fun p => p.2 == m)).map Prod.fst, (m : ℚ))
  else
    ([], (pyLen query : ℚ) / 2)

/-- The fold computing `listMin` returns its accumulator or a member. -/
theorem foldl_min_mem (xs : List Nat) (a : Nat) :
    xs.foldl Nat.min a = a ∨ xs.foldl Nat.min a ∈ xs := by
  induction xs generalizing a with
  | nil => exact Or.inl rfl
  | cons x xs ih =>
    rcases ih (Nat.min a x) with h | h
    · rw [List.foldl_cons, h]
      have hmin : Nat.min a x = a ∨ Nat.min a x = x := by
        rcases Nat.le_total a x with h1 | h1
        · exact Or.inl (Nat.min_eq_left h1)
        · exact Or.inr (Nat.min_eq_right h1)
      rcases hmin with hm | hm
      · exact Or.inl hm
      · rw [hm]; exact Or.inr (List.mem_cons_self x xs)
    · exact Or.inr (List.mem_cons_of_mem x h)

/-- `listMin` of a non-empty list is one of its elements. -/
theorem listMin_mem (l : List Nat) (h : l ≠ []) : listMin l ∈ l := by
  cases l with
  | nil => exact absurd rfl h
  | cons x xs =>
    show xs.foldl Nat.min x ∈ x :: xs
    rcases foldl_min_mem xs x with h1 | h1
    · rw [h1]; exact List.mem_cons_self x xs
    · exact List.mem_cons_of_mem x h1

/-- Selecting the entries of `l` at the positions where `l.map f` hits
`m` is the same as filtering `l` by `f · = m`. -/
theorem zip_map_filter_fst {α : Type} (l : List α) (f : α → Nat) (m : Nat) :
    ((l.zip (l.map f)).filter (fun p => p.2 == m)).map Prod.fst =
      l.filter (fun c => f c == m) := by
  induction l with
  | nil => rfl
  | cons x xs ih =>
    by_cases h : f x = m
    · simp [List.filter_cons, h, ih]
    · have hb : (f x == m) = false := by simpa using h
      simp [List.filter_cons, hb, ih]

/-- C8: `esearch` computes the minimum edit distance `m` over all
places (over their aliases when aliasing is on); when
`m < len(query)/2` it returns all places achieving `m` (in directory
order) paired with `m` — and that list is non-empty — otherwise it
returns `([], len(query)/2)`; consequently a non-empty result always
reports a minimum distance below half the query length. -/
theorem esearch_spec (cities : List City) (query : String) (aliasing : Bool)
    (hc : cities ≠ []) (hq : query ≠ "") :
    ((listMin (cities.map (fun c => c.ematch query aliasing)) : ℚ) <
        (pyLen query : ℚ) / 2 →
      esearch cities query aliasing =
        (cities.filter (fun c => c.ematch query aliasing ==
            listMin (cities.map (fun c => c.ematch query aliasing))),
          (listMin (cities.map (fun c => c.ematch query aliasing)) : ℚ)) ∧
      (esearch cities query aliasing).1 ≠ []) ∧
    (¬ (listMin (cities.map (fun c => c.ematch query aliasing)) : ℚ) <
        (pyLen query : ℚ) / 2 →
      esearch cities query aliasing = ([], (pyLen query : ℚ) / 2)) ∧
    ((esearch cities query aliasing).1 ≠ [] →
      (esearch cities query aliasing).2 =
        (listMin (cities.map (fun c => c.ematch query aliasing)) : ℚ) ∧
      (esearch cities query aliasing).2 < (pyLen query : ℚ) / 2) := by
  have he1 : (listMin (cities.map (fun c => c.ematch query aliasing)) : ℚ) <
      (pyLen query : ℚ) / 2 →
      esearch cities query aliasing =
        (cities.filter (fun c => c.ematch query aliasing ==
            listMin (cities.map (fun c => c.ematch query aliasing))),
          (listMin (cities.map (fun c => c.ematch query aliasing)) : ℚ)) := by
    intro hlt
    simp only [esearch]
    rw [if_pos hlt, zip_map_filter_fst]
  have he2 : ¬ (listMin (cities.map (fun c => c.ematch query aliasing)) : ℚ) <
      (pyLen query : ℚ) / 2 →
      esearch cities query aliasing = ([], (pyLen query : ℚ) / 2) := by
    intro hge
    simp only [esearch]
    rw [if_neg hge]
  have hne : (listMin (cities.map (fun c => c.ematch query aliasing)) : ℚ) <
      (pyLen query : ℚ) / 2 →
      cities.filter (fun c => c.ematch query aliasing ==
        listMin (cities.map (fun c => c.ematch query aliasing))) ≠ [] := by
    intro _
    have hmapne : cities.map (fun c => c.ematch query aliasing) ≠ [] := by
      intro hmap
      exact hc (List.map_eq_nil_iff.mp hmap)
    obtain ⟨c, hcmem, hcval⟩ :=
      List.mem_map.mp (listMin_mem _ hmapne)
    exact List.ne_nil_of_mem
      (List.mem_filter.mpr ⟨hcmem, by simp [hcval]⟩)
  refine ⟨fun hlt => ⟨he1 hlt, ?_⟩, he2, fun h1 => ?_⟩
  · rw [he1 hlt]
    exact hne hlt
  · by_cases hlt : (listMin (cities.map (fun c => c.ematch query aliasing)) : ℚ) <
        (pyLen query : ℚ) / 2
    · rw [he1 hlt]
      exact ⟨rfl, hlt⟩
    · rw [he2 hlt] at h1
      exact absurd rfl h1

/-- Witness for `esearch_spec`: a one-city directory, query `ABCD`
with edit distance 1 to the city `ABC`, below the threshold 2. -/
theorem esearch_spec_witness :
    ([mkCity "ABC" "AB"] : List City) ≠ [] ∧ ("ABCD" : String) ≠ "" ∧
    esearch [mkCity "ABC" "AB"] "ABCD" true = ([mkCity "ABC" "AB"], 1) := by
  refine ⟨by simp, by decide, ?_⟩
  have hm : listMin (([mkCity "ABC" "AB"] : List City).map
      (fun c => c.ematch "ABCD" true)) = 1 := by decide
  have hl : pyLen "ABCD" = 4 := by decide
  have hlt : (listMin (([mkCity "ABC" "AB"] : List City).map
      (fun c => c.ematch "ABCD" true)) : ℚ) < (pyLen "ABCD" : ℚ) / 2 := by
    rw [hm, hl]; norm_num
  have h := (esearch_spec [mkCity "ABC" "AB"] "ABCD" true (by simp) (by decide)).1 hlt
  rw [h.1, hm]
  refine Prod.ext ?_ ?_
  · decide
  · norm_num

/-! ## `Entry._find_short_name` (AntigenicDatabase.py lines 57 to 75) -/

/-- `np.argmin`: index of the first minimal element. -/
def argminAux : List Nat → Nat → Nat → Nat → Nat
  | [], _, _, bestIdx => bestIdx
  | x :: xs, i, best, bestIdx =>
    if x < best then argminAux xs (i + 1) x i
    else argminAux xs (i + 1) best bestIdx

/-- `np.argmin` over a list (first index achieving the minimum). -/
def argminFirst : List Nat → Nat
  | [] => 0
  | x :: xs => argminAux xs 1 x 0

/-- One iteration of the loop of `_find_short_name`: if the city's
canonical name occurs literally in the current short name, replace it
by the city's code; otherwise split on `/`, find the segment with the
smallest edit distance to the canonical name, overwrite that segment
with the code, and rejoin with `/`. -/
def findShortNameStep (shortName : String) (city : City) : String :=
  if strContains shortName city.name then
    pyReplace shortName city.name city.abb
  else
    let splitName := pySplit shortName "/"
    let edists := splitName.map (fun nm => lev nm city.name)
    pyJoin "/" (splitName.set (argminFirst edists) city.abb)

/-- `Entry._find_short_name`, parameterised by the list `cities` the
loop iterates over.  In the source that list is
`list(set(city_list.search(short_name, split=True)))`: the `set` holds
`City` objects hashed by identity, so Python leaves its iteration
order unspecified — the order is an argument here, and the theorem
below shows the result depends on it. -/
def find_short_name (cities : List City) (longName : String) : String :=
  cities.foldl findShortNameStep longName

/-- C6: for the long name `X/YORK` the directory detects the two
places `NEWYORK` (code `JG`, directory position 163) and `NEW-YORK`
(code `NY`, directory position 285), the only canonical names
containing the fragment `YORK`.  Processing them in directory order
yields the short name `NY/JG`, as the claim describes; processing them
in the opposite order — equally possible, since the loop iterates over
`list(set(...))` of identity-hashed objects — yields `X/JG`.  The
derived short name is therefore not a deterministic function of the
long name and the directory, contradicting the claim's determinism
(and its directory-order processing). -/
theorem find_short_name_order_dependent :
    find_short_name [mkCity "NEWYORK" "JG", mkCity "NEW-YORK" "NY"] "X/YORK"
      = "NY/JG" ∧
    find_short_name [mkCity "NEW-YORK" "NY", mkCity "NEWYORK" "JG"] "X/YORK"
      = "X/JG" := by
  exact ⟨by decide, by decide⟩

/-! ## `tools.deep_eq` (tools.py lines 147 to 191)

Python values reachable by `deep_eq` in this repository are nested
structures of dictionaries, lists, strings and numbers. -/

/-- A Python value: string, integer, list, or dictionary (association
list of string keys, in insertion order; Python dictionaries never
hold a duplicate key, which `valWF` below captures). -/
inductive Val where
  | str : String → Val
  | int : Int → Val
  | list : List Val → Val
  | dict : List (String × Val) → Val

/-- No key occurs twice in the dictionary. -/
def dictKeysNodupB : List (String × Val) → Bool
  | [] => true
  | (k, _) :: rest => !(rest.any (fun p => p.1 == k)) && dictKeysNodupB rest

mutual
/-- The value is a possible Python value: every dictionary inside it
has pairwise-distinct keys. -/
def valWF : Val → Bool
  | .str _ => true
  | .int _ => true
  | .list l => listWF l
  | .dict d => dictKeysNodupB d && dictWF d
termination_by structural v => v

/-- `valWF` on every element. -/
def listWF : List Val → Bool
  | [] => true
  | x :: xs => valWF x && listWF xs
termination_by structural l => l

/-- `valWF` on every dictionary value. -/
def dictWF : List (String × Val) → Bool
  | [] => true
  | (_, v) :: rest => valWF v && dictWF rest
termination_by structural l => l
end

/-- `operator.eq` on scalars: Python equality between a string or an
integer and an arbitrary value (`'a' == [...]` and `1 == 'a'` are
`False`). -/
def atomEq : Val → Val → Bool
  | .str s, .str t => s == t
  | .int m, .int n => m == n
  | _, _ => false

/-- `list(iter(s))` for a string `s`: its characters, each a
one-character string. -/
def strChars (s : String) : List Val :=
  s.data.map (fun c => Val.str ⟨[c]⟩)

/-- `d[k]`: first value stored under key `k`, `none` when the key is
absent (Python raises `KeyError`). -/
def lookupD (k : String) (d : List (String × Val)) : Option Val :=
  (d.find? (fun p => p.1 == k)).map Prod.snd

/-- `sorted(d.keys())`. -/
def sortKeys (d : List (String × Val)) : List String :=
  List.insertionSort (fun a b => a ≤ b) (d.map Prod.fst)

/-- Combine two sub-results as `sum(...) == len(...)` does: an
exception (`none`) anywhere propagates, otherwise both must be true.
The generator is fully evaluated, so a `False` does not short-circuit
a later exception. -/
def mergeOpt : Option Bool → Option Bool → Option Bool
  | some x, some y => some (x && y)
  | _, _ => none

mutual
/-- `tools.deep_eq(v1, v2)`, dispatching on the type of `v1` exactly as
the Python does: a string first argument is compared atomically by
`operator.eq`; an integer is not iterable, so the `TypeError` handler
also falls back to `operator.eq`; a list first argument is compared
elementwise (`_deep_iter_eq`) against `list(iter(v2))` — the
characters of a string, the elements of a list, the keys of a
dictionary — after the length test, and against a non-iterable by
`operator.eq`; a dictionary first argument runs `_deep_dict_eq`, whose
`d2.keys()` raises `AttributeError` (`none`) when `v2` is not a
dictionary.  `_deep_dict_eq` compares the sorted key lists and then
`deep_eq(d1[k], d2[k])` for every key `k` of `d1`; the iteration order
(sorted in the source, insertion order here) cannot affect the result,
because the per-key results are combined by the order-independent
`mergeOpt` and Python dictionaries have no duplicate keys. -/
def deepEq (v1 v2 : Val) : Option Bool :=
  match v1, v2 with
  | .str s, w => some (atomEq (.str s) w)
  | .int n, w => some (atomEq (.int n) w)
  | .list l, .list l2 =>
    if l.length = l2.length then zipAll l l2 else some false
  | .list l, .str s =>
    if l.length = (strChars s).length then zipAll l (strChars s) else some false
  | .list l, .dict d2 =>
    if l.length = d2.length then zipAll l (d2.map (fun p => Val.str p.1))
    else some false
  | .list _, .int _ => some false
  | .dict d, .dict d2 =>
    if sortKeys d = sortKeys d2 then pairsAll d d2 else some false
  | .dict _, .str _ => none
  | .dict _, .int _ => none
  | .dict _, .list _ => none
termination_by structural v1

/-- `_deep_iter_eq`'s elementwise pass over `zip(l1, l2)`. -/
def zipAll (l1 l2 : List Val) : Option Bool :=
  match l1, l2 with
  | a :: t1, b :: t2 => mergeOpt (deepEq a b) (zipAll t1 t2)
  | _, _ => some true
termination_by structural l1

/-- `_deep_dict_eq`'s per-key pass: each value of `d1` against the
value stored under the same key in `d2`. -/
def pairsAll (d1 d2 : List (String × Val)) : Option Bool :=
  match d1 with
  | [] => some true
  | (k, v) :: rest =>
    match lookupD k d2 with
    | some w => mergeOpt (deepEq v w) (pairsAll rest d2)
    | none => none
termination_by structural d1
end

/-- Elements of a well-formed list of values are well-formed. -/
theorem listWF_mem {l : List Val} (h : listWF l = true) {x : Val}
    (hx : x ∈ l) : valWF x = true := by
  induction l with
  | nil => cases hx
  | cons a t ih =>
    rw [listWF, Bool.and_eq_true] at h
    rcases List.mem_cons.mp hx with rfl | hmem
    · exact h.1
    · exact ih h.2 hmem

/-- Values of a well-formed dictionary are well-formed. -/
theorem dictWF_mem {d : List (String × Val)} (h : dictWF d = true)
    {p : String × Val} (hp : p ∈ d) : valWF p.2 = true := by
  induction d with
  | nil => cases hp
  | cons q rest ih =>
    obtain ⟨k0, v0⟩ := q
    rw [dictWF, Bool.and_eq_true] at h
    rcases List.mem_cons.mp hp with rfl | hmem
    · exact h.1
    · exact ih h.2 hmem

/-- In a dictionary without duplicate keys, lookup of a stored key
returns the stored value. -/
theorem nodup_lookup {d : List (String × Val)} (h : dictKeysNodupB d = true)
    {k : String} {v : Val} (hkv : (k, v) ∈ d) : lookupD k d = some v := by
  induction d with
  | nil => cases hkv
  | cons q rest ih =>
    obtain ⟨k0, v0⟩ := q
    rw [dictKeysNodupB, Bool.and_eq_true] at h
    have hany : rest.any (fun p => p.1 == k0) = false := by
      simpa using h.1
    rcases List.mem_cons.mp hkv with heq | hmem
    · injection heq with h1 h2
      subst h1; subst h2
      simp [lookupD, List.find?_cons]
    · have hkk : (k0 == k) = false := by
        rw [beq_eq_false_iff_ne]
        intro hc
        subst hc
        have hT : rest.any (fun p => p.1 == k0) = true :=
          List.any_eq_true.mpr ⟨(k0, v), hmem, by simp⟩
        rw [hT] at hany
        cases hany
      have hrest := ih h.2 hmem
      simp only [lookupD, List.find?_cons, hkk] at hrest ⊢
      exact hrest

/-- Elementwise reflexivity lifts through `zipAll`. -/
theorem zipAll_refl (l : List Val)
    (h : ∀ x ∈ l, deepEq x x = some true) : zipAll l l = some true := by
  induction l with
  | nil => rfl
  | cons a t ih =>
    show mergeOpt (deepEq a a) (zipAll t t) = some true
    rw [h a (List.mem_cons_self a t),
      ih (fun x hx => h x (List.mem_cons_of_mem a hx))]
    rfl

/-- Per-key reflexivity lifts through `pairsAll` when every stored key
looks up to the stored value. -/
theorem pairsAll_refl (sub d : List (String × Val))
    (h1 : ∀ p ∈ sub, lookupD p.1 d = some p.2)
    (h2 : ∀ p ∈ sub, deepEq p.2 p.2 = some true) :
    pairsAll sub d = some true := by
  induction sub with
  | nil => rfl
  | cons q rest ih =>
    obtain ⟨k, v⟩ := q
    have e1 : lookupD k d = some v := h1 (k, v) (List.mem_cons_self _ _)
    have e2 : deepEq v v = some true := h2 (k, v) (List.mem_cons_self _ _)
    show (match lookupD k d with
      | some w => mergeOpt (deepEq v w) (pairsAll rest d)
      | none => none) = some true
    rw [e1]
    show mergeOpt (deepEq v v) (pairsAll rest d) = some true
    rw [e2, ih (fun p hp => h1 p (List.mem_cons_of_mem _ hp))
      (fun p hp => h2 p (List.mem_cons_of_mem _ hp))]
    rfl

/-- Reflexivity of `deepEq` on well-formed values, by strong induction
on size. -/
theorem deepEq_refl_aux (n : Nat) :
    ∀ v : Val, sizeOf v ≤ n → valWF v = true → deepEq v v = some true := by
  induction n with
  | zero =>
    intro v hv _
    exfalso
    cases v <;> simp at hv
  | succ n ih =>
    intro v hv hwf
    cases v with
    | str s => simp [deepEq, atomEq]
    | int m => simp [deepEq, atomEq]
    | list l =>
      show (if l.length = l.length then zipAll l l else some false) = some true
      rw [if_pos rfl]
      refine zipAll_refl l (fun x hx => ?_)
      have hs1 : sizeOf x < sizeOf l := List.sizeOf_lt_of_mem hx
      have hs2 : sizeOf (Val.list l) = 1 + sizeOf l := by simp
      refine ih x (by omega) (listWF_mem ?_ hx)
      simpa [valWF] using hwf
    | dict d =>
      show (if sortKeys d = sortKeys d then pairsAll d d else some false) = some true
      rw [if_pos rfl]
      rw [valWF, Bool.and_eq_true] at hwf
      refine pairsAll_refl d d (fun p hp => ?_) (fun p hp => ?_)
      · exact nodup_lookup hwf.1 (by simpa using hp)
      · obtain ⟨a, b⟩ := p
        have hs1 : sizeOf (a, b) < sizeOf d := List.sizeOf_lt_of_mem hp
        have hs2 : sizeOf (Val.dict d) = 1 + sizeOf d := by simp
        have hs3 : sizeOf (a, b) = 1 + sizeOf a + sizeOf b := by simp
        exact ih b (by omega) (dictWF_mem hwf.2 hp)

/-- C5: the claim — `deep_eq` is symmetric and treats strings as atomic
scalars in both argument positions.  Refuted: when the first argument
is a list and the second a string, the string is iterated
character-by-character, so `deep_eq(['a','b'], 'ab')` is `True`
although `deep_eq('ab', ['a','b'])` is `False`. -/
theorem deep_eq_symm_counterexample :
    deepEq (.list [.str "a", .str "b"]) (.str "ab") = some true ∧
    deepEq (.str "ab") (.list [.str "a", .str "b"]) = some false ∧
    valWF (.list [.str "a", .str "b"]) = true ∧ valWF (.str "ab") = true := by
  exact ⟨by decide, by decide, by decide, by decide⟩

/-- C5 (amended): on well-formed Python values (dictionaries never hold
duplicate keys) `deep_eq(x, x)` is `True`, and `deep_eq` restricted to
two string arguments is symmetric — each string is then an atomic
scalar; full symmetry fails, because a string in the *second* position
facing an iterable first argument is iterated character-by-character. -/
theorem deep_eq_refl_and_string_symm :
    (∀ v : Val, valWF v = true → deepEq v v = some true) ∧
    (∀ s t : String, deepEq (.str s) (.str t) = deepEq (.str t) (.str s)) := by
  constructor
  · intro v h
    exact deepEq_refl_aux (sizeOf v) v (Nat.le_refl _) h
  · intro s t
    show some (atomEq (.str s) (.str t)) = some (atomEq (.str t) (.str s))
    by_cases h : s = t
    · subst h; rfl
    · have h1 : (s == t) = false := beq_eq_false_iff_ne.mpr h
      have h2 : (t == s) = false := beq_eq_false_iff_ne.mpr (Ne.symm h)
      show some (s == t) = some (t == s)
      rw [h1, h2]

/-- Witness for `deep_eq_refl_and_string_symm`: a concrete nested
structure (mirroring the dictionaries of the repository's own test
suite) is well-formed and deep-equal to itself. -/
theorem deep_eq_refl_witness :
    valWF (.dict [("A", .str "B"),
      ("C", .dict [("D", .list [.int 1, .str "x"])])]) = true ∧
    deepEq
      (.dict [("A", .str "B"), ("C", .dict [("D", .list [.int 1, .str "x"])])])
      (.dict [("A", .str "B"), ("C", .dict [("D", .list [.int 1, .str "x"])])])
      = some true :=
  ⟨by decide, deep_eq_refl_and_string_symm.1
    (.dict [("A", .str "B"), ("C", .dict [("D", .list [.int 1, .str "x"])])])
    (by decide)⟩

/-! ## `tools.dict_search` (tools.py lines 8 to 79) -/

/-- The comparison of `dict_search` against one string value.  With
`regexp` the compiled `search_value` is `re.search`ed inside the value
(substring semantics for the metacharacter-free fragments the
resolver passes), case-insensitively — pattern compiled with
`IGNORECASE` and value upper-cased — when `ignore_case`; without
`regexp` it is string equality, upper-casing both when `ignore_case`. -/
def strHit (sv : String) (ic rx : Bool) (s : String) : Bool :=
  if rx then
    if ic then strContains (pyUpper s) (pyUpper sv) else strContains s sv
  else
    if ic then pyUpper sv == pyUpper s else sv == s

mutual
/-- `tools.dict_search(dictionary, search_value, ignore_case, regexp)`:
walk the pairs in order; a list value is unwrapped one level; a
mapping value is searched recursively; a string value is compared by
`strHit`; anything else (numbers, lists nested inside lists) is
skipped; true as soon as any comparison hits. -/
def dictSearch (sv : String) (ic rx : Bool) (d : List (String × Val)) : Bool :=
  match d with
  | [] => false
  | (_, v) :: rest => valuesHit sv ic rx v || dictSearch sv ic rx rest
termination_by structural d

/-- One dictionary value: `lookup_values = v if isinstance(v, list)
else [v]`, then each element examined by `elemHit`. -/
def valuesHit (sv : String) (ic rx : Bool) (v : Val) : Bool :=
  match v with
  | .list l => listHit sv ic rx l
  | .dict d2 => dictSearch sv ic rx d2
  | .str s => strHit sv ic rx s
  | .int _ => false
termination_by structural v

/-- The elements of a list value, in order. -/
def listHit (sv : String) (ic rx : Bool) (l : List Val) : Bool :=
  match l with
  | [] => false
  | lv :: rest => elemHit sv ic rx lv || listHit sv ic rx rest
termination_by structural l

/-- One element of a list value: mappings are searched recursively,
strings compared, everything else skipped. -/
def elemHit (sv : String) (ic rx : Bool) (lv : Val) : Bool :=
  match lv with
  | .dict d2 => dictSearch sv ic rx d2
  | .str s => strHit sv ic rx s
  | _ => false
termination_by structural lv
end

/-! ## `Entry._alias_search` (AntigenicDatabase.py lines 83 to 174) -/

/-- The letter class of the source's mutation pattern
`([ARNDCEQGHILKMFPSTWYV]\d{2,3}[ARNDCEQGHILKMFPSTWYV])`: the twenty
single-letter amino-acid codes. -/
def isAminoChar (c : Char) : Bool :=
  ("ARNDCEQGHILKMFPSTWYV".data).contains c

/-- The letter class `[A-Z]` of the pattern as the specification
states it (all twenty-six upper-case letters). -/
def isAZChar (c : Char) : Bool :=
  'A' ≤ c && c ≤ 'Z'

/-- `re.findall` for the pattern `letter, 2-3 digits, letter` over a
character list: left-to-right, non-overlapping, `\d{2,3}` greedy (a
third digit is taken when a letter follows it); on failure the scan
restarts one character later.  The `fuel` argument (initially the
string length, at least one character consumed per step) only makes
the recursion structural; it never runs out. -/
def mutScanAux (letterOk : Char → Bool) : Nat → List Char → List String
  | _, [] => []
  | 0, _ => []
  | fuel + 1, c :: rest =>
    if letterOk c then
      match rest with
      | d1 :: d2 :: tail =>
        if d1.isDigit && d2.isDigit then
          match tail with
          | d3 :: tail2 =>
            if d3.isDigit then
              match tail2 with
              | e :: tail3 =>
                if letterOk e then
                  ⟨[c, d1, d2, d3, e]⟩ :: mutScanAux letterOk fuel tail3
                else mutScanAux letterOk fuel rest
              | [] => mutScanAux letterOk fuel rest
            else
              if letterOk d3 then
                ⟨[c, d1, d2, d3]⟩ :: mutScanAux letterOk fuel tail2
              else mutScanAux letterOk fuel rest
          | [] => mutScanAux letterOk fuel rest
        else mutScanAux letterOk fuel rest
      | _ => mutScanAux letterOk fuel rest
    else mutScanAux letterOk fuel rest

/-- `re.findall(mut_pattern, s)` with the given letter class. -/
def findMutations (letterOk : Char → Bool) (s : String) : List String :=
  mutScanAux letterOk s.data.length s.data

/-- `flatten([z.split('-') for z in flatten([x.split('_') for x in
s.split('/')])])`: split on `/`, then `_`, then `-`. -/
def splitAllSeps (s : String) : List String :=
  flatten_list ((flatten_list ((pySplit s "/").map
    (fun x => pySplit x "_"))).map (fun z => pySplit z "-"))

/-- `set(l1) == set(l2)` for string lists. -/
def strSetEq (l1 l2 : List String) : Bool :=
  l1.all (fun x => l2.contains x) && l2.all (fun x => l1.contains x)

/-- `[x.isalpha() for x in name].count(True)` (ASCII letters). -/
def nAlpha (s : String) : Nat := (s.data.filter Char.isAlpha).length

/-- `[x.isnumeric() for x in name].count(True)` (ASCII digits). -/
def nNumeric (s : String) : Nat := (s.data.filter Char.isDigit).length

/-- The noise filter of the scoring loop: a candidate is tested only
when longer than 4, or with more than 3 numeric or more than 3
alphabetic characters. -/
def noiseKeep (name : String) : Bool :=
  decide (4 < pyLen name) || decide (3 < nNumeric name) ||
    decide (3 < nAlpha name)

/-- `Entry._alias_search(query, ignore_case, refined,
ignore_mutations, regexp)` for an entry with raw record `data` and
long name `long` (in the source `long = data['long']`).  The
`foundCityNames` parameter stands for the city names the refined
branch recovers from the Place Directory (source lines 120 to 158);
the directory lookup machinery is irrelevant to the claims settled
here, and the mutation gate in particular fires before it is ever
consulted.  Steps: split the query on `/`; unless `ignore_mutations`,
extract the mutation tokens of the query fragments and of the long
name split on `/`, `_`, `-`, returning 0 when the two sets differ;
when `refined`, rebuild the candidate list from the query split on all
three separators plus the recovered city names; finally count the
candidates that pass the noise filter and deep-search into the record. -/
def alias_search (data : List (String × Val)) (long : String) (query : String)
    (ignoreCase refined ignoreMutations regexp : Bool)
    (foundCityNames : List String) : Nat :=
  let searchNames := pySplit query "/"
  if !ignoreMutations
      && !(strSetEq
        (flatten_list (searchNames.map (findMutations isAminoChar)))
        (flatten_list ((splitAllSeps long).map (findMutations isAminoChar)))) then
    0
  else
    let searchNames :=
      if refined then splitAllSeps query ++ foundCityNames else searchNames
    searchNames.countP (fun nm => noiseKeep nm && dictSearch nm ignoreCase regexp data)

/-- C2: the claim — the mutation tokens are those matching
`[A-Z]\d{2,3}[A-Z]`, and any difference in the extracted sets forces
score 0.  Refuted: the code's letter class is the twenty amino-acid
codes, which exclude `B`; the entry long name `AAAA/B123C` holds the
`[A-Z]`-token `B123C` while the query `AAAA` holds none, so under the
claim's pattern the sets differ and the score should be 0 — yet the
code extracts no token from either side and scores 1 (the fragment
`AAAA` deep-matches the record). -/
theorem alias_search_az_pattern_counterexample :
    findMutations isAZChar "AAAA" = [] ∧
    findMutations isAZChar "B123C" = ["B123C"] ∧
    strSetEq
      (flatten_list ((pySplit "AAAA" "/").map (findMutations isAZChar)))
      (flatten_list ((splitAllSeps "AAAA/B123C").map (findMutations isAZChar)))
      = false ∧
    alias_search [("id", Val.str "X1"), ("long", Val.str "AAAA/B123C")]
      "AAAA/B123C" "AAAA" true false false true [] = 1 := by
  exact ⟨by decide, by decide, by decide, by decide⟩

/-- C2 (amended): with `ignore_mutations` false, `alias_score`
extracts the tokens of pattern
`[ARNDCEQGHILKMFPSTWYV]\d{2,3}[ARNDCEQGHILKMFPSTWYV]` — the letter
class is the twenty amino-acid codes, not all of `A`–`Z` — from the
query fragments and from the long name split on `/`, `_`, `-`, and
returns 0 whenever the two extracted token sets differ, regardless of
any other fragment matches, for either value of `refined`. -/
theorem alias_search_mutation_gate (data : List (String × Val))
    (long query : String) (ic refined regexp : Bool) (found : List String)
    (h : strSetEq
      (flatten_list ((pySplit query "/").map (findMutations isAminoChar)))
      (flatten_list ((splitAllSeps long).map (findMutations isAminoChar)))
      = false) :
    alias_search data long query ic refined false regexp found = 0 := by
  simp [alias_search, h]

/-- Witness for `alias_search_mutation_gate`: the query `H275Y` cites
a mutation absent from the long name `PARIS`, so the score is 0. -/
theorem alias_search_mutation_gate_witness :
    strSetEq
      (flatten_list ((pySplit "H275Y" "/").map (findMutations isAminoChar)))
      (flatten_list ((splitAllSeps "PARIS").map (findMutations isAminoChar)))
      = false ∧
    alias_search [("id", Val.str "X1"), ("long", Val.str "PARIS")]
      "PARIS" "H275Y" true true false true [] = 0 :=
  ⟨by decide, alias_search_mutation_gate
    [("id", Val.str "X1"), ("long", Val.str "PARIS")]
    "PARIS" "H275Y" true true true [] (by decide)⟩

/-! ## `Dataset.aliased_search` (AntigenicDatabase.py lines 270 to 288) -/

/-- `np.max` over a list of scores; `none` models the `ValueError`
numpy raises on an empty array. -/
def npMax : List Nat → Option Nat
  | [] => none
  | x :: xs => some (xs.foldl Nat.max x)

/-- `Dataset.aliased_search(search_name, ignore_case, regexp)`,
parameterised by the per-entry scorer `score e search_name ignore_case
refined regexp` (in the source, `entry._alias_search(search_name,
ignore_case=…, refined=…, regexp=…)`; the first pass leaves `refined`
at its default `False`).  Compute all scores unrefined and their
maximum; if that maximum is below 2, recompute all scores refined; take
the maximum again; below 2 return `[]`, otherwise the entries at the
positions where the score equals the maximum
(`np.argwhere(I == max_hits)`), in dataset order.  `np.max` of the
empty score array raises, which the `Except.error` branch models. -/
def aliased_search {α : Type} (score : α → String → Bool → Bool → Bool → Nat)
    (entries : List α) (searchName : String) (ignoreCase regexp : Bool) :
    Except String (List α) :=
  let I := entries.map (fun e => score e searchName ignoreCase false regexp)
  match npMax I with
  | none => .error "zero-size array to reduction operation maximum"
  | some m0 =>
    let I1 :=
      if m0 < 2 then entries.map (fun e => score e searchName ignoreCase true regexp)
      else I
    match npMax I1 with
    | none => .error "zero-size array to reduction operation maximum"
    | some m1 =>
      if m1 < 2 then .ok []
      else .ok (((entries.zip I1).filter (fun p => p.2 == m1)).map Prod.fst)

/-- Members of a filtered zip-with-map keep the defining property. -/
theorem mem_filter_score {α : Type} {l : List α} {f : α → Nat} {m : Nat}
    {e : α} (he : e ∈ l.filter (fun c => f c == m)) : f e = m := by
  have h := (List.mem_filter.mp he).2
  simpa using h

/-- C1: for a non-empty dataset, `aliased_search` first scores every
entry with `refined=False`; writing `m0` for the maximum of those
scores, when `m0 ≥ 2` it returns — without any refined pass — exactly
the entries whose unrefined score equals `m0`, in dataset order; when
`m0 < 2` it rescores everything with `refined=True` and, writing `m1`
for the new maximum, returns `[]` when `m1 < 2` and otherwise exactly
the entries whose refined score equals `m1`, in dataset order; in
particular every returned entry's recorded score (from the pass
actually used) is at least 2, so a single weak hit is never returned. -/
theorem aliased_search_spec {α : Type}
    (score : α → String → Bool → Bool → Bool → Nat)
    (entries : List α) (q : String) (ic rx : Bool) (hne : entries ≠ [])
    (m0 : Nat)
    (hm0 : npMax (entries.map (fun e => score e q ic false rx)) = some m0) :
    (2 ≤ m0 →
      aliased_search score entries q ic rx =
        .ok (entries.filter (fun e => score e q ic false rx == m0))) ∧
    (m0 < 2 →
      ∀ m1, npMax (entries.map (fun e => score e q ic true rx)) = some m1 →
        (m1 < 2 → aliased_search score entries q ic rx = .ok []) ∧
        (2 ≤ m1 → aliased_search score entries q ic rx =
          .ok (entries.filter (fun e => score e q ic true rx == m1)))) ∧
    (∀ l, aliased_search score entries q ic rx = .ok l →
      ∀ e ∈ l,
        2 ≤ (if m0 < 2 then score e q ic true rx else score e q ic false rx)) := by
  by_cases h0 : m0 < 2
  · have hbody : ∀ m1,
        npMax (entries.map (fun e => score e q ic true rx)) = some m1 →
        aliased_search score entries q ic rx =
          (if m1 < 2 then .ok [] else
            .ok (entries.filter (fun e => score e q ic true rx == m1))) := by
      intro m1 hm1
      simp only [aliased_search]
      rw [hm0]
      simp only [if_pos h0]
      rw [hm1]
      show (if m1 < 2 then (Except.ok [] : Except String (List α)) else
        Except.ok (((entries.zip (entries.map (fun e => score e q ic true rx))).filter
          (fun p => p.2 == m1)).map Prod.fst)) = _
      rw [zip_map_filter_fst]
    refine ⟨fun h2 => absurd h0 (by omega), fun _ m1 hm1 => ?_, ?_⟩
    · constructor
      · intro hlt
        rw [hbody m1 hm1, if_pos hlt]
      · intro hge
        rw [hbody m1 hm1, if_neg (by omega)]
    · intro l hl e hel
      obtain ⟨m1, hm1⟩ : ∃ m1,
          npMax (entries.map (fun e => score e q ic true rx)) = some m1 := by
        cases hE : entries.map (fun e => score e q ic true rx) with
        | nil => exact absurd (List.map_eq_nil_iff.mp hE) hne
        | cons x xs => exact ⟨xs.foldl Nat.max x, rfl⟩
      rw [hbody m1 hm1] at hl
      by_cases hlt : m1 < 2
      · rw [if_pos hlt] at hl
        injection hl with hl'
        rw [← hl'] at hel
        cases hel
      · rw [if_neg hlt] at hl
        injection hl with hl'
        rw [← hl'] at hel
        have := mem_filter_score hel
        rw [if_pos h0, this]
        omega
  · have hbody : aliased_search score entries q ic rx =
        (if m0 < 2 then .ok [] else
          .ok (entries.filter (fun e => score e q ic false rx == m0))) := by
      simp only [aliased_search]
      rw [hm0]
      simp only [if_neg h0]
      rw [hm0]
      show (if m0 < 2 then (Except.ok [] : Except String (List α)) else
        Except.ok (((entries.zip (entries.map (fun e => score e q ic false rx))).filter
          (fun p => p.2 == m0)).map Prod.fst)) = _
      rw [zip_map_filter_fst, if_neg h0]
    refine ⟨fun _ => ?_, fun hlt => absurd hlt h0, ?_⟩
    · rw [hbody, if_neg h0]
    · intro l hl e hel
      rw [hbody, if_neg h0] at hl
      injection hl with hl'
      rw [← hl'] at hel
      have := mem_filter_score hel
      rw [if_neg h0, this]
      omega

/-- Witness for `aliased_search_spec`: two entries scoring 3 and 1 in
the unrefined pass; the maximum 3 is at least 2, and exactly the
first entry is returned. -/
theorem aliased_search_spec_witness :
    ([10, 20] : List Nat) ≠ [] ∧
    npMax ([10, 20].map
      (fun e => (fun (e : Nat) (_ : String) (_ _ _ : Bool) =>
        if e = 10 then 3 else 1) e "Q" true false true)) = some 3 ∧
    aliased_search
      (fun (e : Nat) (_ : String) (_ _ _ : Bool) => if e = 10 then 3 else 1)
      [10, 20] "Q" true true = .ok [10] := by
  refine ⟨by simp, by decide, ?_⟩
  have h := (aliased_search_spec
    (fun (e : Nat) (_ : String) (_ _ _ : Bool) => if e = 10 then 3 else 1)
    [10, 20] "Q" true true (by simp) 3 (by decide)).1 (by omega)
  rw [h]
  rfl

/-- C9: on a dataset with zero entries `aliased_search` does not
return the documented empty list — `np.max` of the empty score array
raises before any emptiness check — so the call fails and never
produces an `ok` result of any kind. -/
theorem aliased_search_empty_error {α : Type}
    (score : α → String → Bool → Bool → Bool → Nat)
    (q : String) (ic rx : Bool) :
    aliased_search score ([] : List α) q ic rx =
      .error "zero-size array to reduction operation maximum" ∧
    ∀ l : List α, aliased_search score ([] : List α) q ic rx ≠ .ok l := by
  have h : aliased_search score ([] : List α) q ic rx =
      .error "zero-size array to reduction operation maximum" := rfl
  exact ⟨h, fun l hl => by rw [h] at hl; cases hl⟩

/-! ## `Dataset.get_entry` (AntigenicDatabase.py lines 249 to 258) -/

/-- A dataset entry as `get_entry` consults it: its `id` and `long`
fields (`self.ids` and `self.longs` are the per-entry projections of
`self.entries`). -/
structure DEntry where
  id : String
  long : String
deriving DecidableEq

/-- `Dataset.get_entry(search_value, search_method)`: for each entry,
the source evaluates `len(re.findall(value, search_value)) > 0` where
`value` is the entry's stored `id` (or `long`, chosen by
`search_method`) — the stored field is the case-sensitive unanchored
regex and it is searched *inside* the query `search_value` (substring
semantics for metacharacter-free fields); the entries at the matching
indices are returned in dataset order. -/
def get_entry (entries : List DEntry) (searchValue : String) (byLong : Bool) :
    List DEntry :=
  entries.filter (fun e => strContains searchValue (if byLong then e.long else e.id))

/-- The lookup as the specification words it (the claim under test):
the query value is the case-sensitive unanchored regex, matched
against each entry's stored field. -/
def get_entry_claim (entries : List DEntry) (searchValue : String)
    (byLong : Bool) : List DEntry :=
  entries.filter (fun e => strContains (if byLong then e.long else e.id) searchValue)

/-- C7: the claim — the query value is the regex matched against each
entry's field.  Refuted: the code passes the *stored field* as the
pattern and the query as the subject, so querying `A1X` by id on a
dataset whose sole id is `A1` returns that entry (the id `A1` occurs
inside `A1X`), while the claim's reading returns nothing (`A1X` does
not occur inside `A1`). -/
theorem get_entry_direction_counterexample :
    get_entry [⟨"A1", "L1"⟩] "A1X" false = [⟨"A1", "L1"⟩] ∧
    get_entry_claim [⟨"A1", "L1"⟩] "A1X" false = [] ∧
    strContains "A1X" "A1" = true ∧ strContains "A1" "A1X" = false := by
  exact ⟨by decide, by decide, by decide, by decide⟩

/-- C7 (amended): `get_entry` treats each entry's stored `id` (or long
name, selected by `by`) as the case-sensitive unanchored regex and
searches it inside the query value — the roles of pattern and subject
are the reverse of the claim's; it returns, preserving dataset order,
exactly the entries whose field occurs inside the value; on the
dataset with ids `A1`, `A2`, querying `A1` by id still returns exactly
the one entry with id `A1`. -/
theorem get_entry_spec :
    (∀ (entries : List DEntry) (v : String) (b : Bool),
      List.Sublist (get_entry entries v b) entries ∧
      ∀ e : DEntry, e ∈ get_entry entries v b ↔
        e ∈ entries ∧ strContains v (if b then e.long else e.id) = true) ∧
    get_entry [⟨"A1", "LA"⟩, ⟨"A2", "LB"⟩] "A1" false = [⟨"A1", "LA"⟩] := by
  refine ⟨fun entries v b => ⟨List.filter_sublist _, fun e => ?_⟩, by decide⟩
  simpa [get_entry] using
    (List.mem_filter (l := entries)
      (p := fun e => strContains v (if b then e.long else e.id)) (a := e))

/-! ## `Dataset.__init__` with an `id_subset` (AntigenicDatabase.py
lines 218 to 241) -/

/-- A raw input record: the required `id` and `long` fields plus any
other (string-valued) fields; only `id` is consulted by the subset
selection. -/
structure RawRec where
  id : String
  long : String
  rest : List (String × String)
deriving DecidableEq

/-- The record `{'id': 'None', 'long': 'None'}` appended when the
requested id is the empty string. -/
def placeholderRec : RawRec := ⟨"None", "None", []⟩

/-- The `id_subset` loop of `Dataset.__init__`: for each requested id
in order — an empty-string id appends the placeholder record, checked
*before* any comparison with the data; otherwise all records whose
`id` equals it (in data order) are appended, with a printed warning
when there are several, or a printed warning and nothing appended when
there are none.  Returns the selected records and the warnings. -/
def subset_select (data : List RawRec) : List String → List RawRec × List String
  | [] => ([], [])
  | id1 :: restIds =>
    let tail := subset_select data restIds
    if id1 = "" then
      (placeholderRec :: tail.1, tail.2)
    else
      let found := data.filter (fun x => x.id == id1)
      if 1 ≤ found.length then
        (found ++ tail.1,
          (if 1 < found.length then
            ["Warning: more than one data with id " ++ id1 ++
              " found inside the dataset"]
          else []) ++ tail.2)
      else
        (tail.1,
          ("Warning: no data with id " ++ id1 ++ " found inside the dataset")
            :: tail.2)

/-- The `id` and `long` fields `Entry.__init__` reads from a selected
record (`SerumDataset`/`AntigenDataset` construct one entry per
selected record, the placeholder included, with no special casing). -/
def mkDEntry (r : RawRec) : DEntry := ⟨r.id, r.long⟩

/-- An empty-string requested id contributes exactly the placeholder
record, no matching against the data and no warning, whatever the
data and the surrounding requested ids. -/
theorem subset_select_append_empty (data : List RawRec)
    (pre post : List String) :
    subset_select data (pre ++ "" :: post) =
      ((subset_select data pre).1 ++
        placeholderRec :: (subset_select data post).1,
       (subset_select data pre).2 ++ (subset_select data post).2) := by
  induction pre with
  | nil => rfl
  | cons a pre ih =>
    show subset_select data (a :: (pre ++ "" :: post)) = _
    simp only [subset_select]
    rw [ih]
    by_cases ha : a = ""
    · simp [ha]
    · by_cases hm : 1 ≤ (data.filter (fun x => x.id == a)).length
      · by_cases hd : 1 < (data.filter (fun x => x.id == a)).length
        · simp [ha, hm, hd, List.append_assoc]
        · simp [ha, hm, hd, List.append_assoc]
      · simp [ha, hm]

/-- C10: when a `Dataset` is built with an `id_subset`, each empty
string in the subset is neither matched against the raw records (even
a record whose id *is* the empty string is ignored) nor reported as
unmatched: it contributes the placeholder record
`{'id': 'None', 'long': 'None'}` at that position, which then becomes
an ordinary `Entry` with id and long name `None`; concretely, with the
data consisting of one record whose id is the empty string, the
requested subset `['']` selects the placeholder, not that record, and
prints nothing. -/
theorem subset_select_empty_id (data : List RawRec) (pre post : List String) :
    subset_select data (pre ++ "" :: post) =
      ((subset_select data pre).1 ++
        placeholderRec :: (subset_select data post).1,
       (subset_select data pre).2 ++ (subset_select data post).2) ∧
    (subset_select data (pre ++ "" :: post)).1.map mkDEntry =
      (subset_select data pre).1.map mkDEntry ++
        DEntry.mk "None" "None" :: (subset_select data post).1.map mkDEntry ∧
    subset_select [RawRec.mk "" "E" []] [""] = ([placeholderRec], []) := by
  have h := subset_select_append_empty data pre post
  refine ⟨h, ?_, by decide⟩
  rw [h]
  simp [mkDEntry, placeholderRec]
